import Mathlib

/-!
Verification of the COT dashboard metric pipeline (`app2.py`).

Numeric cells that may be missing (pandas `NaN`) are modelled as `Option ℚ`:
`none` is NaN, `some q` a finite value.  Every pandas/numpy operation the
script uses is embedded as a total Lean function on these values.
-/

set_option autoImplicit false

namespace COT

/-- Absolute value as pandas `.abs()` computes it on a finite value. -/
def ratAbs (q : ℚ) : ℚ := if q < 0 then -q else q

theorem ratAbs_eq_abs (q : ℚ) : ratAbs q = |q| := by
  unfold ratAbs
  rcases lt_or_le q 0 with h | h
  · rw [if_pos h, abs_of_neg h]
  · rw [if_neg (not_lt.mpr h), abs_of_nonneg h]

/-- NaN-propagating subtraction, as float subtraction behaves on NaN. -/
def oSub (a b : Option ℚ) : Option ℚ :=
  match a, b with
  | some x, some y => some (x - y)
  | _, _ => none

/-- Float comparison `v > x`: false when `v` is NaN. -/
def oGt (v : Option ℚ) (x : ℚ) : Bool :=
  match v with
  | some a => decide (x < a)
  | none => false

/-- Float comparison `v < x`: false when `v` is NaN. -/
def oLt (v : Option ℚ) (x : ℚ) : Bool :=
  match v with
  | some a => decide (a < x)
  | none => false

/-- The near-zero guard threshold `1e-12` used by `pct_change_safe`. -/
def eps12 : ℚ := 1 / 1000000000000

/-- `pct_change_safe` from `app2.py`: `prev = series.shift(1)`;
`pct = (series - prev) / prev.abs() * 100`; entries where
`prev.abs() < 1e-12` or `prev` is NaN are masked to NaN. -/
def pct_change_safe (series : List (Option ℚ)) : List (Option ℚ) :=
  (List.range series.length).map (fun k =>
    let prev : Option ℚ := if k = 0 then none else series.getD (k - 1) none
    match prev with
    | none => none
    | some p =>
        if ratAbs p < eps12 then none
        else (series.getD k none).map (fun x => (x - p) / ratAbs p * 100))

theorem getD_map_range {α : Type} (n k : ℕ) (f : ℕ → Option α) (hk : k < n) :
    ((List.range n).map f).getD k none = f k := by
  have hlen : k < ((List.range n).map f).length := by
    simp [hk]
  rw [List.getD_eq_getElem _ _ hlen, List.getElem_map, List.getElem_range]

/-- C1: `pct_change_safe` is total (one finite-or-NaN output per input, never an
exception or ±Infinity); at each position `k` the result is NaN when the previous
value is NaN (or there is none) or has magnitude below `1e-12`, and otherwise
equals `100 * (v[k] - v[k-1]) / |v[k-1]|`; on the series `[100, 0, 50]` it yields
`[NaN, -100.0, NaN]`. -/
theorem pct_change_safe_correct :
    (∀ series : List (Option ℚ),
      (pct_change_safe series).length = series.length ∧
      ∀ k, k < series.length →
        (((if k = 0 then none else series.getD (k - 1) none) = none →
            (pct_change_safe series).getD k none = none) ∧
         (∀ p : ℚ, (if k = 0 then none else series.getD (k - 1) none) = some p →
            ((|p| < eps12 → (pct_change_safe series).getD k none = none) ∧
             (eps12 ≤ |p| →
               (pct_change_safe series).getD k none =
                 (series.getD k none).map (fun x => 100 * (x - p) / |p|)))))) ∧
    pct_change_safe [some 100, some 0, some 50] = [none, some (-100), none] := by
  constructor
  · intro series
    constructor
    · simp [pct_change_safe]
    · intro k hk
      constructor
      · intro h0
        unfold pct_change_safe
        rw [getD_map_range _ _ _ hk]
        simp only [h0]
      · intro p hp
        constructor
        · intro hlt
          unfold pct_change_safe
          rw [getD_map_range _ _ _ hk]
          simp only [hp]
          rw [if_pos (by rw [ratAbs_eq_abs]; exact hlt)]
        · intro hge
          unfold pct_change_safe
          rw [getD_map_range _ _ _ hk]
          simp only [hp]
          rw [if_neg (by rw [ratAbs_eq_abs]; exact not_lt.mpr hge)]
          congr 1
          funext x
          rw [ratAbs_eq_abs]
          ring
  · norm_num [pct_change_safe, eps12, ratAbs, List.range_succ]

/-- Witness for C1 at the series `[100, 0, 50]`, position 1. -/
theorem pct_change_safe_correct_witness :
    (pct_change_safe [some 100, some 0, some 50]).getD 1 none = some (-100) := by
  have h := (((pct_change_safe_correct.1 [some 100, some 0, some 50]).2 1
      (by norm_num)).2 100 (by norm_num)).2 (by norm_num [eps12])
  rw [h]
  norm_num

/-! ### Header normalization (`load_data`, line 14):
`str(c).replace("\n", " ").strip()` on every column label. -/

/-- The characters Python's `str.strip()` removes. -/
def pyWhite (c : Char) : Bool :=
  c = ' ' || c = '\t' || c = '\n' || c = '\r' || c = Char.ofNat 11 || c = Char.ofNat 12

/-- `str.replace("\n", " ")` acts on each character. -/
def newlineToSpace (c : Char) : Char := if c = '\n' then ' ' else c

/-- `str.strip()`: drop leading and trailing whitespace. -/
def stripChars (l : List Char) : List Char :=
  ((l.dropWhile pyWhite).reverse.dropWhile pyWhite).reverse

/-- Header normalization from `load_data`:
`str(c).replace("\n", " ").strip()`. -/
def normalizeHeader (l : List Char) : List Char :=
  stripChars (l.map newlineToSpace)

theorem dropWhile_idem {α : Type} (p : α → Bool) (l : List α) :
    (l.dropWhile p).dropWhile p = l.dropWhile p := by
  induction l with
  | nil => rfl
  | cons a t ih =>
      by_cases h : p a
      · rw [List.dropWhile_cons_of_pos h]
        exact ih
      · rw [List.dropWhile_cons_of_neg h, List.dropWhile_cons_of_neg h]

theorem exists_append_dropWhile {α : Type} (p : α → Bool) (l : List α) :
    ∃ t, l = t ++ l.dropWhile p := by
  induction l with
  | nil => exact ⟨[], rfl⟩
  | cons a t ih =>
      by_cases h : p a
      · obtain ⟨u, hu⟩ := ih
        refine ⟨a :: u, ?_⟩
        rw [List.dropWhile_cons_of_pos h]
        rw [List.cons_append, ← hu]
      · exact ⟨[], by rw [List.dropWhile_cons_of_neg h, List.nil_append]⟩

/-- The right-side strip alone. -/
def stripRight (l : List Char) : List Char :=
  (l.reverse.dropWhile pyWhite).reverse

theorem stripChars_eq (l : List Char) :
    stripChars l = stripRight (l.dropWhile pyWhite) := rfl

theorem exists_append_stripRight (m : List Char) :
    ∃ u, m = stripRight m ++ u := by
  obtain ⟨t, ht⟩ := exists_append_dropWhile pyWhite m.reverse
  refine ⟨t.reverse, ?_⟩
  have := congrArg List.reverse ht
  rw [List.reverse_reverse, List.reverse_append] at this
  exact this

theorem stripRight_idem (m : List Char) :
    stripRight (stripRight m) = stripRight m := by
  unfold stripRight
  rw [List.reverse_reverse, dropWhile_idem]

theorem dropWhile_stripRight (m : List Char) (hm : m.dropWhile pyWhite = m) :
    (stripRight m).dropWhile pyWhite = stripRight m := by
  cases hsr : stripRight m with
  | nil => rfl
  | cons a s =>
      obtain ⟨u, hu⟩ := exists_append_stripRight m
      rw [hsr] at hu
      have ha : pyWhite a = false := by
        by_contra hcon
        have ha' : pyWhite a = true := by
          cases h' : pyWhite a
          · exact absurd h' hcon
          · rfl
        have : m.dropWhile pyWhite = (s ++ u).dropWhile pyWhite := by
          rw [hu, List.cons_append, List.dropWhile_cons_of_pos ha']
        rw [hm, hu] at this
        have hlen := congrArg List.length this
        have hle := (List.dropWhile_sublist (l := s ++ u) (p := pyWhite)).length_le
        simp only [List.cons_append, List.length_cons] at hlen
        omega
      rw [List.dropWhile_cons_of_neg (by rw [ha]; exact Bool.false_ne_true)]

theorem stripChars_idem (l : List Char) :
    stripChars (stripChars l) = stripChars l := by
  rw [stripChars_eq l]
  rw [stripChars_eq (stripRight (l.dropWhile pyWhite))]
  rw [dropWhile_stripRight _ (dropWhile_idem pyWhite l), stripRight_idem]

theorem mem_stripChars {c : Char} {l : List Char} (h : c ∈ stripChars l) : c ∈ l := by
  unfold stripChars at h
  rw [List.mem_reverse] at h
  have h1 := (List.dropWhile_sublist (l := (l.dropWhile pyWhite).reverse)
    (p := pyWhite)).mem h
  rw [List.mem_reverse] at h1
  exact (List.dropWhile_sublist (l := l) (p := pyWhite)).mem h1

theorem map_id_of_mem {l : List Char} {f : Char → Char} (h : ∀ c ∈ l, f c = c) :
    l.map f = l := by
  induction l with
  | nil => rfl
  | cons a t ih =>
      rw [List.map_cons, h a (by simp), ih (fun c hc => h c (by simp [hc]))]

theorem map_newlineToSpace_stripChars (l : List Char) :
    (stripChars (l.map newlineToSpace)).map newlineToSpace
      = stripChars (l.map newlineToSpace) := by
  apply map_id_of_mem
  intro c hc
  have hmem := mem_stripChars hc
  rw [List.mem_map] at hmem
  obtain ⟨d, _, hd⟩ := hmem
  subst hd
  unfold newlineToSpace
  by_cases h : d = '\n'
  · rw [if_pos h]
    rfl
  · rw [if_neg h, if_neg h]

/-- C2 counterexample: the headers `"a b"` and `"a  b"` differ only in embedded
whitespace (identical non-whitespace characters in identical order), yet they
normalize to different names — header normalization only replaces newlines with
spaces and trims the ends; it does not collapse interior whitespace runs. -/
theorem normalizeHeader_not_whitespace_insensitive :
    (['a', ' ', 'b'].filter (fun c => !pyWhite c)
        = ['a', ' ', ' ', 'b'].filter (fun c => !pyWhite c)) ∧
    normalizeHeader ['a', ' ', 'b'] ≠ normalizeHeader ['a', ' ', ' ', 'b'] := by
  decide

/-- C2 (amended): header normalization replaces each embedded newline with a
single space and trims whitespace from the ends (it does not collapse interior
runs); it is idempotent, and two headers that differ only in newline-versus-space
choices (equal after the newline-to-space substitution) normalize identically. -/
theorem normalizeHeader_amended :
    (∀ l : List Char, normalizeHeader (normalizeHeader l) = normalizeHeader l) ∧
    (∀ l₁ l₂ : List Char, l₁.map newlineToSpace = l₂.map newlineToSpace →
      normalizeHeader l₁ = normalizeHeader l₂) := by
  constructor
  · intro l
    unfold normalizeHeader
    rw [map_newlineToSpace_stripChars, stripChars_idem]
  · intro l₁ l₂ h
    unfold normalizeHeader
    rw [h]

/-- Witness for the amended C2: `"a\nb"` and `"a b"` normalize identically. -/
theorem normalizeHeader_amended_witness :
    normalizeHeader ['a', '\n', 'b'] = normalizeHeader ['a', ' ', 'b'] :=
  normalizeHeader_amended.2 ['a', '\n', 'b'] ['a', ' ', 'b'] (by decide)

/-! ### Data model: date coercion, rows, required columns, filtering
(`app2.py` lines 15-18, 24-35, 47-53). -/

/-- A calendar date as produced by date coercion. -/
structure Date where
  year : ℤ
  month : ℕ
  day : ℕ
deriving DecidableEq

/-- A raw date cell before coercion: a numeric `a/b/c` triple (as in
`31/12/2023`) or unparseable text. -/
inductive DateCell where
  | dmy (a b : ℕ) (c : ℤ)
  | text
deriving DecidableEq

def isLeap (y : ℤ) : Bool := (y % 4 == 0 && y % 100 != 0) || y % 400 == 0

def daysInMonth (y : ℤ) (m : ℕ) : ℕ :=
  if m = 2 then (if isLeap y then 29 else 28)
  else if m = 4 ∨ m = 6 ∨ m = 9 ∨ m = 11 then 30
  else 31

/-- `pd.to_datetime(..., errors="coerce", dayfirst=True)` on one cell
(`load_data`, lines 16-18): under the day-first convention the first component
of the triple is the day and the second the month; a cell that fails to parse
coerces to a missing date (`NaT`). -/
def parseDateDayFirst : DateCell → Option Date
  | .dmy a b c =>
      if 1 ≤ b ∧ b ≤ 12 ∧ 1 ≤ a ∧ a ≤ daysInMonth c b then some ⟨c, b, a⟩ else none
  | .text => none

/-- A row before date coercion. -/
structure PreRow where
  market : String
  dateCell : DateCell
  ncL : Option ℚ
  ncS : Option ℚ
  cL : Option ℚ
  cS : Option ℚ

/-- A row of the loaded table: date coerced, numeric cells NaN-capable. -/
structure RawRow where
  market : String
  date : Option Date
  ncL : Option ℚ
  ncS : Option ℚ
  cL : Option ℚ
  cS : Option ℚ
deriving DecidableEq

/-- The date-coercion step of `load_data` (lines 15-18). -/
def loadRows (rows : List PreRow) : List RawRow :=
  rows.map (fun r => ⟨r.market, parseDateDayFirst r.dateCell, r.ncL, r.ncS, r.cL, r.cS⟩)

def COL_MARKET : String := "Market and Exchange Names"
def COL_DATE : String := "As of Date in Form YYYY-MM-DD"
def COL_NC_L : String := "Noncommercial Positions-Long (All)"
def COL_NC_S : String := "Noncommercial Positions-Short (All)"
def COL_C_L : String := "Commercial Positions-Long (All)"
def COL_C_S : String := "Commercial Positions-Short (All)"

/-- `need` (line 31). -/
def need : List String := [COL_MARKET, COL_DATE, COL_NC_L, COL_NC_S, COL_C_L, COL_C_S]

/-- `missing = [c for c in need if c not in df.columns]` (line 32). -/
def missingCols (cols : List String) : List String :=
  need.filter (fun c => !cols.contains c)

def dateKey (d : Date) : ℤ := (d.year * 12 + d.month) * 32 + d.day

def rowKey (r : RawRow) : ℤ :=
  match r.date with
  | none => 0
  | some d => dateKey d

instance : DecidableRel (fun a b : RawRow => rowKey a ≤ rowKey b) :=
  fun a b => Int.decLe _ _

/-- The row predicate of the `df_plot` filter (lines 47-48): market equality
and calendar year between the slider bounds; a missing date has no year, so
`between` is false for it. -/
def rowSelected (mkt : String) (y0 y1 : ℤ) (r : RawRow) : Bool :=
  r.market == mkt &&
  (match r.date with
   | none => false
   | some d => decide (y0 ≤ d.year) && decide (d.year ≤ y1))

/-- `df_plot` (lines 47-49): filter by market and year range, then sort
ascending by date. -/
def dfPlot (rows : List RawRow) (mkt : String) (y0 y1 : ℤ) : List RawRow :=
  List.insertionSort (fun a b => rowKey a ≤ rowKey b)
    (rows.filter (rowSelected mkt y0 y1))

/-! ### Derived metrics (`app2.py` lines 56-57, 60-101, 174-187). -/

/-- `df_plot["NC Net"] = NC Long - NC Short` for one row (line 56). -/
def ncNetOf (r : RawRow) : Option ℚ := oSub r.ncL r.ncS

/-- `df_plot["C Net"] = C Long - C Short` for one row (line 57). -/
def cNetOf (r : RawRow) : Option ℚ := oSub r.cL r.cS

def ncNetCol (rows : List RawRow) : List (Option ℚ) := rows.map ncNetOf

def cNetCol (rows : List RawRow) : List (Option ℚ) := rows.map cNetOf

/-- `iloc[-1]` of a column. -/
def lastVal (col : List (Option ℚ)) : Option ℚ := col.getLastD none

/-- The default `eps` of `direction_from_nc`, `1e-9`. -/
def eps9 : ℚ := 1 / 1000000000

/-- `direction_from_nc` (lines 60-66); float comparisons with NaN are false,
so a NaN input falls through both guards to `("Neutral", gray)`. -/
def direction_from_nc (nc_now : Option ℚ) (eps : ℚ := eps9) : String × String :=
  if oGt nc_now eps then ("Alcista", "#0ea65d")
  else if oLt nc_now (-eps) then ("Bajista", "#c0392b")
  else ("Neutral", "#808080")

def INT_LOW : ℚ := 10

def INT_MED : ℚ := 25

/-- `intensity_from_pct` (lines 73-81): `None`/NaN falls to the default
`("Bajo", gray)`. -/
def intensity_from_pct (delta_pct_abs : Option ℚ) : String × String :=
  match delta_pct_abs with
  | none => ("Bajo", "#7f8c8d")
  | some d =>
      if d < INT_LOW then ("Bajo", "#7f8c8d")
      else if d < INT_MED then ("Medio", "#f39c12")
      else ("Alto", "#8e44ad")

/-- `prev = df_plot.iloc[-2]` KPI delta (lines 86-90, 106-116): with fewer than
2 rows no delta is passed to the metric. -/
def kpiDelta (col : List (Option ℚ)) : Option ℚ :=
  if 2 ≤ col.length then oSub (lastVal col) (col.getD (col.length - 2) none)
  else none

/-- `nc_net_4w = df_plot.iloc[-5]["NC Net"]` (lines 93-101). -/
def nc_net_4w (col : List (Option ℚ)) : Option ℚ :=
  if 5 ≤ col.length then col.getD (col.length - 5) none else none

/-- `nc_delta_abs = last["NC Net"] - nc_net_4w` (lines 93-101). -/
def nc_delta_abs (col : List (Option ℚ)) : Option ℚ :=
  if 5 ≤ col.length then oSub (lastVal col) (col.getD (col.length - 5) none)
  else none

/-- `nc_delta_pct = (nc_delta_abs / max(1.0, abs(nc_net_4w))) * 100.0`
(lines 93-101): NaN when either endpoint is NaN or fewer than 5 rows exist. -/
def nc_delta_pct (col : List (Option ℚ)) : Option ℚ :=
  if 5 ≤ col.length then
    match lastVal col, col.getD (col.length - 5) none with
    | some now, some thn => some ((now - thn) / max 1 (ratAbs thn) * 100)
    | _, _ => none
  else none

/-! ### Monthly resample (`df_m`, lines 174-187). -/

def monthKey (d : Date) : ℤ × ℕ := (d.year, d.month)

/-- Order-preserving deduplication, with the keys already emitted as the
accumulator. -/
def dedupKeysAux : List (ℤ × ℕ) → List (ℤ × ℕ) → List (ℤ × ℕ)
  | _, [] => []
  | seen, a :: t =>
      if a ∈ seen then dedupKeysAux seen t
      else a :: dedupKeysAux (a :: seen) t

/-- Order-preserving deduplication (first occurrence kept). -/
def dedupKeys (l : List (ℤ × ℕ)) : List (ℤ × ℕ) := dedupKeysAux [] l

/-- The calendar months present in the rows, in order of first appearance
(the rows are date-sorted, so this is chronological). -/
def monthsOf (rows : List RawRow) : List (ℤ × ℕ) :=
  dedupKeys (rows.filterMap (fun r => r.date.map monthKey))

/-- The column values falling in calendar month `k`, in row order. -/
def monthVals (rows : List RawRow) (f : RawRow → Option ℚ) (k : ℤ × ℕ) :
    List (Option ℚ) :=
  rows.filterMap (fun r =>
    match r.date with
    | some d => if monthKey d = k then some (f r) else none
    | none => none)

/-- Pandas `GroupBy.last`: the last non-missing entry of the group (NaN when
every entry is missing). -/
def lastSome (xs : List (Option ℚ)) : Option ℚ := (xs.filterMap id).getLast?

/-- `df_m` (lines 174-178): `.resample("M").last().dropna(how="all")` over the
`NC Net` and `C Net` columns.  Calendar months absent from the data resample to
all-NaN rows, which `dropna(how="all")` removes together with the present
months whose two values are both NaN. -/
def dfM (rows : List RawRow) : List ((ℤ × ℕ) × Option ℚ × Option ℚ) :=
  ((monthsOf rows).map (fun k =>
      (k, lastSome (monthVals rows ncNetOf k), lastSome (monthVals rows cNetOf k)))).filter
    (fun x => x.2.1.isSome || x.2.2.isSome)

/-- `df_m["NC Net %MoM"]` (line 186). -/
def dfM_ncMoM (rows : List RawRow) : List (Option ℚ) :=
  pct_change_safe ((dfM rows).map (fun x => x.2.1))

/-- `df_m["C Net %MoM"]` (line 187). -/
def dfM_cMoM (rows : List RawRow) : List (Option ℚ) :=
  pct_change_safe ((dfM rows).map (fun x => x.2.2))

/-! ### The script's top-level control flow (lines 31-53 and onward). -/

/-- The derived outputs computed after the filter guard passes. -/
structure Derived where
  ncNet : List (Option ℚ)
  cNet : List (Option ℚ)
  dirLabel : String
  dirColor : String
  intLabel : String
  intColor : String
  ncMoM : List (Option ℚ)
  cMoM : List (Option ℚ)
deriving DecidableEq

def deriveAll (dfp : List RawRow) : Derived :=
  let nc := ncNetCol dfp
  let dir := direction_from_nc (lastVal nc)
  let inten := intensity_from_pct ((nc_delta_pct nc).map ratAbs)
  { ncNet := nc
    cNet := cNetCol dfp
    dirLabel := dir.1
    dirColor := dir.2
    intLabel := inten.1
    intColor := inten.2
    ncMoM := dfM_ncMoM dfp
    cMoM := dfM_cMoM dfp }

/-- Outcome of one run of the script: a hard stop on missing columns
(`st.error` + `st.stop`, lines 33-35), an informational empty state
(`st.info` + `st.stop`, lines 51-53), or the rendered derived metrics. -/
inductive PipeResult where
  | missingColumns (names : List String)
  | emptySelection
  | rendered (d : Derived)
deriving DecidableEq

/-- The script's straight-line flow: column check, filter, derive. -/
def runPipeline (cols : List String) (rows : List RawRow) (mkt : String)
    (y0 y1 : ℤ) : PipeResult :=
  if missingCols cols = [] then
    let dfp := dfPlot rows mkt y0 y1
    if dfp = [] then .emptySelection
    else .rendered (deriveAll dfp)
  else .missingColumns (missingCols cols)

/-- C3: the required-columns check reports every required column absent from
the normalized table (membership in `missing` is exactly "required and not
present"), and whenever at least one required column is missing the pipeline
stops at the `missingColumns` outcome — no derived computation is reached. -/
theorem missing_columns_complete :
    (∀ (cols : List String) (c : String),
        c ∈ missingCols cols ↔ c ∈ need ∧ c ∉ cols) ∧
    (∀ (cols : List String) (rows : List RawRow) (mkt : String) (y0 y1 : ℤ),
        missingCols cols ≠ [] →
        runPipeline cols rows mkt y0 y1 = .missingColumns (missingCols cols)) := by
  constructor
  · intro cols c
    simp [missingCols, List.mem_filter]
  · intro cols rows mkt y0 y1 h
    unfold runPipeline
    rw [if_neg h]

/-- Witness for C3: a table having only the date column is reported as missing
all five other required columns, and the pipeline halts there. -/
theorem missing_columns_complete_witness :
    runPipeline [COL_DATE] [] "" 0 0
      = .missingColumns [COL_MARKET, COL_NC_L, COL_NC_S, COL_C_L, COL_C_S] := by
  have h := missing_columns_complete.2 [COL_DATE] [] "" 0 0 (by decide)
  rw [h]
  decide

/-- C5: date cells are parsed day-first (the first component of a `d/m/y`
triple is the day, the second the month), an unparseable or out-of-range cell
coerces to a missing date, and every row of the filtered `df_plot` sequence
used downstream carries a present date — rows with a missing date are
excluded, not retained as NaN. -/
theorem dayfirst_and_missing_date_rows :
    (∀ (a b : ℕ) (c : ℤ),
        (1 ≤ b ∧ b ≤ 12 ∧ 1 ≤ a ∧ a ≤ daysInMonth c b →
          parseDateDayFirst (.dmy a b c) = some ⟨c, b, a⟩) ∧
        (¬(1 ≤ b ∧ b ≤ 12 ∧ 1 ≤ a ∧ a ≤ daysInMonth c b) →
          parseDateDayFirst (.dmy a b c) = none)) ∧
    parseDateDayFirst .text = none ∧
    (∀ (rows : List RawRow) (mkt : String) (y0 y1 : ℤ) (r : RawRow),
        r ∈ dfPlot rows mkt y0 y1 → r.date.isSome) := by
  refine ⟨?_, rfl, ?_⟩
  · intro a b c
    constructor
    · intro h
      simp only [parseDateDayFirst]
      rw [if_pos h]
    · intro h
      simp only [parseDateDayFirst]
      rw [if_neg h]
  · intro rows mkt y0 y1 r hr
    rw [dfPlot, List.mem_insertionSort] at hr
    have hsel := (List.mem_filter.mp hr).2
    unfold rowSelected at hsel
    cases hd : r.date with
    | none => rw [hd] at hsel; simp at hsel
    | some d => rfl

/-- Witness for C5: `31/12/2023` parses day-first to 31 December 2023; a
loaded table with one well-dated row and one unparseable-dated row filters to
a sequence whose row has a present date. -/
theorem dayfirst_and_missing_date_rows_witness :
    parseDateDayFirst (.dmy 31 12 2023) = some ⟨2023, 12, 31⟩ ∧
    (RawRow.date ⟨"W", some ⟨2020, 1, 5⟩, none, none, none, none⟩).isSome := by
  constructor
  · exact (dayfirst_and_missing_date_rows.1 31 12 2023).1
      (by norm_num [daysInMonth, isLeap])
  · exact dayfirst_and_missing_date_rows.2.2
      (loadRows [⟨"W", .dmy 5 1 2020, none, none, none, none⟩,
                 ⟨"W", .text, some 1, none, none, none⟩])
      "W" 2019 2021 ⟨"W", some ⟨2020, 1, 5⟩, none, none, none, none⟩
      (by decide)

/-- C9: a market/year filter whose year range lies strictly outside the years
present in the data yields the empty sequence (no error is raised — the filter
is total), and with the required columns present the pipeline then stops at the
informational `emptySelection` outcome instead of computing derived metrics. -/
theorem out_of_range_filter_empty :
    ∀ (rows : List RawRow) (mkt : String) (y0 y1 : ℤ),
      ((∀ r ∈ rows, ∀ d : Date, r.date = some d → y1 < d.year) ∨
       (∀ r ∈ rows, ∀ d : Date, r.date = some d → d.year < y0)) →
      dfPlot rows mkt y0 y1 = [] ∧
      ∀ cols : List String, missingCols cols = [] →
        runPipeline cols rows mkt y0 y1 = .emptySelection := by
  intro rows mkt y0 y1 hout
  have hfilter : rows.filter (rowSelected mkt y0 y1) = [] := by
    rw [List.filter_eq_nil_iff]
    intro r hr
    unfold rowSelected
    cases hd : r.date with
    | none => simp
    | some d =>
        rcases hout with h | h
        · have := h r hr d hd
          simp only [Bool.and_eq_true, decide_eq_true_eq, not_and]
          intro _
          omega
        · have := h r hr d hd
          simp only [Bool.and_eq_true, decide_eq_true_eq, not_and]
          intro _
          omega
  have hplot : dfPlot rows mkt y0 y1 = [] := by
    rw [dfPlot, hfilter]
    rfl
  refine ⟨hplot, ?_⟩
  intro cols hcols
  unfold runPipeline
  rw [if_pos hcols]
  simp [hplot]

/-- Witness for C9: data from 2020 filtered to the years 2025-2026 gives the
empty informational outcome. -/
theorem out_of_range_filter_empty_witness :
    runPipeline need [⟨"M", some ⟨2020, 3, 3⟩, some 1, some 2, none, none⟩]
      "M" 2025 2026 = PipeResult.emptySelection := by
  refine (out_of_range_filter_empty
      [⟨"M", some ⟨2020, 3, 3⟩, some 1, some 2, none, none⟩] "M" 2025 2026
      (Or.inr ?_)).2 need (by decide)
  intro r hr d hd
  simp only [List.mem_singleton] at hr
  subst hr
  simp only [Option.some.injEq] at hd
  subst hd
  norm_num

/-- C10: the direction classifier is total over every (possibly-NaN) input: it
always returns one of its three label/color pairs, and on NaN — where both
float comparisons are false — it returns `("Neutral", gray)` rather than
failing or signalling unavailability. -/
theorem direction_from_nc_total :
    (∀ v : Option ℚ,
        direction_from_nc v = ("Alcista", "#0ea65d") ∨
        direction_from_nc v = ("Bajista", "#c0392b") ∨
        direction_from_nc v = ("Neutral", "#808080")) ∧
    direction_from_nc none = ("Neutral", "#808080") := by
  constructor
  · intro v
    unfold direction_from_nc
    split_ifs with h1 h2
    · exact Or.inl rfl
    · exact Or.inr (Or.inl rfl)
    · exact Or.inr (Or.inr rfl)
  · rfl

/-- C7: with `ε = 1e-9` the direction classifier returns Bullish (`Alcista`)
when `nc_net > ε`, Bearish (`Bajista`) when `nc_net < -ε`, and Neutral
otherwise; and the 4-period intensity input is
`delta_pct = 100 * (now - then) / max(1, |then|)` with a denominator never
below 1, so it never divides by zero. -/
theorem direction_and_delta_pct :
    (∀ x : ℚ,
        (eps9 < x → direction_from_nc (some x) = ("Alcista", "#0ea65d")) ∧
        (x < -eps9 → direction_from_nc (some x) = ("Bajista", "#c0392b")) ∧
        (-eps9 ≤ x → x ≤ eps9 →
          direction_from_nc (some x) = ("Neutral", "#808080"))) ∧
    (∀ (col : List (Option ℚ)) (now thn : ℚ),
        5 ≤ col.length → lastVal col = some now →
        col.getD (col.length - 5) none = some thn →
        nc_delta_pct col = some (100 * (now - thn) / max 1 |thn|) ∧
        (1 : ℚ) ≤ max 1 |thn|) := by
  constructor
  · intro x
    have heps : (0 : ℚ) < eps9 := by norm_num [eps9]
    refine ⟨?_, ?_, ?_⟩
    · intro h
      unfold direction_from_nc oGt
      rw [if_pos (by simpa using h)]
    · intro h
      have h1 : ¬ eps9 < x := by linarith
      unfold direction_from_nc oGt oLt
      rw [if_neg (by simpa using h1), if_pos (by simpa using h)]
    · intro h1 h2
      unfold direction_from_nc oGt oLt
      rw [if_neg (by simpa using not_lt.mpr h2),
        if_neg (by simpa using not_lt.mpr h1)]
  · intro col now thn hlen hnow hthn
    constructor
    · unfold nc_delta_pct
      rw [if_pos hlen, hnow, hthn]
      simp only []
      rw [ratAbs_eq_abs]
      congr 1
      ring
    · exact le_max_left 1 |thn|

/-- Witness for C7: a positive net is Bullish, and on a 5-row column the delta
percent is `100 * (10 - 1) / max(1, 1) = 900`. -/
theorem direction_and_delta_pct_witness :
    direction_from_nc (some 5) = ("Alcista", "#0ea65d") ∧
    nc_delta_pct [some 1, some 2, some 3, some 4, some 10] = some 900 := by
  constructor
  · exact (direction_and_delta_pct.1 5).1 (by norm_num [eps9])
  · have h := (direction_and_delta_pct.2 [some 1, some 2, some 3, some 4, some 10]
      10 1 (by norm_num) (by rfl) (by rfl)).1
    rw [h]
    norm_num

/-- C8 counterexample: with four observations (fewer than 5) the 4-period
delta quantities are indeed NaN, but the intensity is not reported as "not
available": the classifier falls back to the ordinary `("Bajo", gray)` pair —
exactly the output it produces for a genuinely computed small delta such as
3% — so insufficient history is indistinguishable from a computed low
intensity. -/
theorem insufficient_history_counterexample :
    nc_delta_pct [some 1, some 2, some 3, some 4] = none ∧
    intensity_from_pct ((nc_delta_pct [some 1, some 2, some 3, some 4]).map ratAbs)
      = ("Bajo", "#7f8c8d") ∧
    intensity_from_pct (some 3) = ("Bajo", "#7f8c8d") := by
  have h4 : nc_delta_pct [some 1, some 2, some 3, some 4] = none := by
    unfold nc_delta_pct
    rw [if_neg (by norm_num)]
  refine ⟨h4, ?_, ?_⟩
  · rw [h4]
    rfl
  · simp only [intensity_from_pct]
    rw [if_pos (by norm_num [INT_LOW])]

/-- C8 (amended): with fewer than 5 observations the 4-period delta quantities
(`nc_net_4w`, `nc_delta_abs`, `nc_delta_pct`) are all NaN and the intensity
classifier, receiving NaN, falls back to its default label `("Bajo", gray)`
instead of computing on the data (the same label as a computed low intensity,
not a distinct "not available" report); with fewer than 2 observations the KPI
delta is omitted (`None`). -/
theorem insufficient_history_amended :
    ∀ col : List (Option ℚ),
      (col.length < 5 →
        nc_delta_pct col = none ∧ nc_delta_abs col = none ∧
        nc_net_4w col = none ∧
        intensity_from_pct ((nc_delta_pct col).map ratAbs)
          = ("Bajo", "#7f8c8d")) ∧
      (col.length < 2 → kpiDelta col = none) := by
  intro col
  constructor
  · intro h
    have hpct : nc_delta_pct col = none := by
      unfold nc_delta_pct
      rw [if_neg (by omega)]
    refine ⟨hpct, ?_, ?_, ?_⟩
    · unfold nc_delta_abs
      rw [if_neg (by omega)]
    · unfold nc_net_4w
      rw [if_neg (by omega)]
    · rw [hpct]
      rfl
  · intro h
    unfold kpiDelta
    rw [if_neg (by omega)]

/-- Witness for the amended C8 on a single-row column. -/
theorem insufficient_history_amended_witness :
    nc_delta_pct [some 7] = none ∧ kpiDelta [some 7] = none := by
  have h := insufficient_history_amended [some 7]
  exact ⟨(h.1 (by norm_num)).1, h.2 (by norm_num)⟩

theorem notMem_seen_dedupKeysAux :
    ∀ (l seen : List (ℤ × ℕ)) (x : ℤ × ℕ),
      x ∈ dedupKeysAux seen l → x ∉ seen := by
  intro l
  induction l with
  | nil =>
      intro seen x hx
      simp [dedupKeysAux] at hx
  | cons a t ih =>
      intro seen x hx
      rw [dedupKeysAux] at hx
      by_cases hmem : a ∈ seen
      · rw [if_pos hmem] at hx
        exact ih seen x hx
      · rw [if_neg hmem] at hx
        rcases List.mem_cons.mp hx with h | h
        · exact h ▸ hmem
        · intro hseen
          exact ih (a :: seen) x h (List.mem_cons_of_mem a hseen)

theorem nodup_dedupKeysAux :
    ∀ (l seen : List (ℤ × ℕ)), (dedupKeysAux seen l).Nodup := by
  intro l
  induction l with
  | nil =>
      intro seen
      simp [dedupKeysAux]
  | cons a t ih =>
      intro seen
      rw [dedupKeysAux]
      by_cases hmem : a ∈ seen
      · rw [if_pos hmem]
        exact ih seen
      · rw [if_neg hmem]
        refine List.Nodup.cons ?_ (ih (a :: seen))
        intro hx
        exact notMem_seen_dedupKeysAux t (a :: seen) a hx (List.mem_cons_self a seen)

theorem nodup_dedupKeys (l : List (ℤ × ℕ)) : (dedupKeys l).Nodup :=
  nodup_dedupKeysAux l []

/-- The spec's phrase "the last chronological observation within each month"
read literally, for comparison with the implementation: the value carried by
each month's chronologically last row, even when that value is missing. -/
def resampleLastStrict (rows : List RawRow) (f : RawRow → Option ℚ) :
    List ((ℤ × ℕ) × Option ℚ) :=
  (monthsOf rows).map (fun k => (k, (monthVals rows f k).getLastD none))

/-- Three weekly rows: January has net 100 then a NaN net (missing cells),
February has net 50. -/
def rowsC6 : List RawRow :=
  [⟨"W", some ⟨2024, 1, 1⟩, some 140, some 40, none, none⟩,
   ⟨"W", some ⟨2024, 1, 8⟩, none, none, none, none⟩,
   ⟨"W", some ⟨2024, 2, 5⟩, some 50, some 0, none, none⟩]

/-- C6 counterexample: `resample("M").last()` takes each month's **last
non-missing** value, not the value of the last chronological observation: with
January's rows `[100, NaN]` the code resamples January to `100` and computes a
February MoM of `-50%`, while the claim's literal "last chronological
observation" reading gives January = NaN and a NaN February MoM. -/
theorem monthsOf_rowsC6 : monthsOf rowsC6 = [((2024 : ℤ), 1), ((2024 : ℤ), 2)] := by
  decide

theorem monthVals_rowsC6_nc1 :
    monthVals rowsC6 ncNetOf ((2024 : ℤ), 1) = [some 100, none] := by
  norm_num [monthVals, rowsC6, ncNetOf, oSub, monthKey,
    List.filterMap_cons, List.filterMap_nil]

theorem monthVals_rowsC6_nc2 :
    monthVals rowsC6 ncNetOf ((2024 : ℤ), 2) = [some 50] := by
  norm_num [monthVals, rowsC6, ncNetOf, oSub, monthKey,
    List.filterMap_cons, List.filterMap_nil]

theorem monthVals_rowsC6_c1 :
    monthVals rowsC6 cNetOf ((2024 : ℤ), 1) = [none, none] := by
  norm_num [monthVals, rowsC6, cNetOf, oSub, monthKey,
    List.filterMap_cons, List.filterMap_nil]

theorem monthVals_rowsC6_c2 :
    monthVals rowsC6 cNetOf ((2024 : ℤ), 2) = [none] := by
  norm_num [monthVals, rowsC6, cNetOf, oSub, monthKey,
    List.filterMap_cons, List.filterMap_nil]

theorem dfM_rowsC6 :
    dfM rowsC6 = [(((2024 : ℤ), 1), some 100, none), (((2024 : ℤ), 2), some 50, none)] := by
  rw [dfM, monthsOf_rowsC6]
  rw [List.map_cons, List.map_cons, List.map_nil,
    monthVals_rowsC6_nc1, monthVals_rowsC6_nc2,
    monthVals_rowsC6_c1, monthVals_rowsC6_c2]
  simp [lastSome]

theorem strict_rowsC6 :
    (resampleLastStrict rowsC6 ncNetOf).map (fun x => x.2) = [none, some 50] := by
  rw [resampleLastStrict, monthsOf_rowsC6]
  simp [monthVals_rowsC6_nc1, monthVals_rowsC6_nc2]

theorem monthly_resample_counterexample :
    (dfM rowsC6).map (fun x => x.2.1) = [some 100, some 50] ∧
    (resampleLastStrict rowsC6 ncNetOf).map (fun x => x.2) = [none, some 50] ∧
    dfM_ncMoM rowsC6 = [none, some (-50)] ∧
    pct_change_safe ((resampleLastStrict rowsC6 ncNetOf).map (fun x => x.2))
      = [none, none] := by
  refine ⟨?_, strict_rowsC6, ?_, ?_⟩
  · rw [dfM_rowsC6]
    rfl
  · rw [dfM_ncMoM, dfM_rowsC6]
    norm_num [pct_change_safe, eps12, ratAbs, List.range_succ]
  · rw [strict_rowsC6]
    norm_num [pct_change_safe, eps12, ratAbs, List.range_succ]

/-- C6 (amended): the month-over-month computation resamples each net series
to at most one value per calendar month — the resampled month keys are
pairwise distinct — taking the **last non-missing** value within the month
(not an average, and skipping missing entries as pandas `last()` does; a month
whose two net values are both missing is dropped), and then applies
`pct_change_safe` to the consecutive monthly values. -/
theorem monthly_resample_amended :
    (∀ rows : List RawRow,
        ((dfM rows).map Prod.fst).Nodup ∧
        (∀ x, x ∈ dfM rows →
          x.2.1 = lastSome (monthVals rows ncNetOf x.1) ∧
          x.2.2 = lastSome (monthVals rows cNetOf x.1) ∧
          (x.2.1.isSome ∨ x.2.2.isSome)) ∧
        dfM_ncMoM rows = pct_change_safe ((dfM rows).map (fun y => y.2.1)) ∧
        dfM_cMoM rows = pct_change_safe ((dfM rows).map (fun y => y.2.2))) ∧
    lastSome [some 100, some 200] = some 200 ∧
    lastSome [some 100, none] = some 100 ∧
    lastSome [none, none] = none := by
  refine ⟨?_, rfl, rfl, rfl⟩
  intro rows
  refine ⟨?_, ?_, rfl, rfl⟩
  · unfold dfM
    rw [List.filter_map]
    rw [List.map_map]
    have : (Prod.fst ∘ fun k : ℤ × ℕ =>
        (k, lastSome (monthVals rows ncNetOf k), lastSome (monthVals rows cNetOf k)))
        = id := rfl
    rw [this, List.map_id]
    exact (nodup_dedupKeys _).filter _
  · intro x hx
    unfold dfM at hx
    have hp := List.of_mem_filter hx
    have hx' := List.mem_of_mem_filter hx
    rw [List.mem_map] at hx'
    obtain ⟨k, _, hk⟩ := hx'
    subst hk
    simp only [Bool.or_eq_true] at hp
    exact ⟨rfl, rfl, by simpa using hp⟩

/-- Witness for the amended C6 at `rowsC6`: January's resampled NC net is the
last non-missing January value, 100. -/
theorem monthly_resample_amended_witness :
    lastSome (monthVals rowsC6 ncNetOf ((2024 : ℤ), 1)) = some 100 := by
  have hmem : ((((2024 : ℤ), 1), some (100 : ℚ), (none : Option ℚ))) ∈ dfM rowsC6 := by
    rw [dfM_rowsC6]
    simp
  have h := ((monthly_resample_amended.1 rowsC6).2.1 _ hmem).1
  exact h.symm

/-! ### Rolling COT Index (spec §4.3; the repository variant carrying it is
not among the source files, so it is modelled from the spec). -/

/-- Minimum of a window's valid values (NaN on an empty window). -/
def listMin : List ℚ → Option ℚ
  | [] => none
  | a :: t => some (t.foldl min a)

/-- Maximum of a window's valid values (NaN on an empty window). -/
def listMax : List ℚ → Option ℚ
  | [] => none
  | a :: t => some (t.foldl max a)

/-- Modelled from the spec: the rolling COT Index of §4.3 — absent from the
source files in `src/`, which carry no rolling-window computation.  Over the
trailing `W`-observation window ending at `i`,
`index[i] = 100 * (nc_net[i] - min(window)) / (max(window) - min(window))`,
where min/max range over the window's valid (non-NaN) values; the index is NaN
when fewer than `m = max(5, floor(0.2*W))` valid observations are in the
window, when `max == min`, and — the formula being NaN-propagating — when
`nc_net[i]` is itself NaN. -/
def cotIndex (nc : List (Option ℚ)) (W : ℕ) : List (Option ℚ) :=
  (List.range nc.length).map (fun i =>
    let vals := ((nc.take (i + 1)).drop (i + 1 - W)).filterMap id
    if vals.length < max 5 (W / 5) then none
    else
      match nc.getD i none, listMin vals, listMax vals with
      | some x, some mn, some mx =>
          if mx = mn then none else some (100 * (x - mn) / (mx - mn))
      | _, _, _ => none)

theorem foldl_min_le_init (l : List ℚ) : ∀ a : ℚ, l.foldl min a ≤ a := by
  induction l with
  | nil =>
      intro a
      simp
  | cons b t ih =>
      intro a
      rw [List.foldl_cons]
      exact le_trans (ih (min a b)) (min_le_left a b)

theorem foldl_min_le_mem (l : List ℚ) : ∀ a x : ℚ, x ∈ l → l.foldl min a ≤ x := by
  induction l with
  | nil =>
      intro a x hx
      simp at hx
  | cons b t ih =>
      intro a x hx
      rw [List.foldl_cons]
      rcases List.mem_cons.mp hx with h | h
      · subst h
        exact le_trans (foldl_min_le_init t (min a x)) (min_le_right a x)
      · exact ih (min a b) x h

theorem le_foldl_max_init (l : List ℚ) : ∀ a : ℚ, a ≤ l.foldl max a := by
  induction l with
  | nil =>
      intro a
      simp
  | cons b t ih =>
      intro a
      rw [List.foldl_cons]
      exact le_trans (le_max_left a b) (ih (max a b))

theorem le_foldl_max_mem (l : List ℚ) : ∀ a x : ℚ, x ∈ l → x ≤ l.foldl max a := by
  induction l with
  | nil =>
      intro a x hx
      simp at hx
  | cons b t ih =>
      intro a x hx
      rw [List.foldl_cons]
      rcases List.mem_cons.mp hx with h | h
      · subst h
        exact le_trans (le_max_right a x) (le_foldl_max_init t (max a x))
      · exact ih (max a b) x h

theorem listMin_le {vals : List ℚ} {mn x : ℚ}
    (hmn : listMin vals = some mn) (hx : x ∈ vals) : mn ≤ x := by
  cases vals with
  | nil => simp at hx
  | cons a t =>
      simp only [listMin, Option.some.injEq] at hmn
      subst hmn
      rcases List.mem_cons.mp hx with h | h
      · subst h
        exact foldl_min_le_init t x
      · exact foldl_min_le_mem t a x h

theorem le_listMax {vals : List ℚ} {mx x : ℚ}
    (hmx : listMax vals = some mx) (hx : x ∈ vals) : x ≤ mx := by
  cases vals with
  | nil => simp at hx
  | cons a t =>
      simp only [listMax, Option.some.injEq] at hmx
      subst hmx
      rcases List.mem_cons.mp hx with h | h
      · subst h
        exact le_foldl_max_init t x
      · exact le_foldl_max_mem t a x h

theorem mem_window {nc : List (Option ℚ)} {i W : ℕ} (hW : 1 ≤ W)
    (hi : i < nc.length) :
    nc.getD i none ∈ (nc.take (i + 1)).drop (i + 1 - W) := by
  have hlen : (nc.take (i + 1)).length = i + 1 := by
    rw [List.length_take]
    omega
  have hidx : i - (i + 1 - W) < ((nc.take (i + 1)).drop (i + 1 - W)).length := by
    rw [List.length_drop, hlen]
    omega
  have heq : ((nc.take (i + 1)).drop (i + 1 - W))[i - (i + 1 - W)]
      = nc.getD i none := by
    rw [List.getElem_drop, List.getElem_take, List.getD_eq_getElem _ _ hi]
    have harg : (i + 1 - W) + (i - (i + 1 - W)) = i := by omega
    simp only [harg]
  rw [← heq]
  exact List.getElem_mem hidx

/-- A series whose sixth entry is NaN while its window is otherwise rich. -/
def ncC4 : List (Option ℚ) := [some 0, some 10, some 0, some 10, some 0, none]

/-- C4 counterexample: at position 5 with `W = 6` the trailing window holds 5
valid observations (`m = max(5, floor(0.2*6)) = 5` is met) and its statistics
are non-degenerate (`min = 0 < 10 = max`), yet the index is NaN — because the
current value is NaN and the formula propagates it — so the claim's "lies in
[0, 100] whenever window_max > window_min" fails as stated. -/
theorem cotIndex_counterexample :
    (cotIndex ncC4 6).getD 5 none = none ∧
    max 5 (6 / 5) ≤ (((ncC4.take 6).drop 0).filterMap id).length ∧
    listMin (((ncC4.take 6).drop 0).filterMap id) = some 0 ∧
    listMax (((ncC4.take 6).drop 0).filterMap id) = some 10 := by
  refine ⟨?_, by decide, by decide, by decide⟩
  decide

/-- C4 (amended, modelled from the spec): the rolling COT index at `i` is NaN
when the trailing `W`-window holds fewer than `m = max(5, floor(0.2*W))` valid
observations, when the window's max equals its min, or when the current value
is NaN; otherwise it equals `100 * (nc_net[i] - min) / (max - min)` and lies
in the closed interval `[0, 100]` whenever `max > min`. -/
theorem cotIndex_amended :
    ∀ (nc : List (Option ℚ)) (W i : ℕ), i < nc.length →
      ((((nc.take (i + 1)).drop (i + 1 - W)).filterMap id).length < max 5 (W / 5) →
          (cotIndex nc W).getD i none = none) ∧
      (nc.getD i none = none → (cotIndex nc W).getD i none = none) ∧
      (∀ x mn mx : ℚ,
          max 5 (W / 5) ≤ (((nc.take (i + 1)).drop (i + 1 - W)).filterMap id).length →
          nc.getD i none = some x →
          listMin (((nc.take (i + 1)).drop (i + 1 - W)).filterMap id) = some mn →
          listMax (((nc.take (i + 1)).drop (i + 1 - W)).filterMap id) = some mx →
          ((mx = mn → (cotIndex nc W).getD i none = none) ∧
           (mn < mx →
             (cotIndex nc W).getD i none = some (100 * (x - mn) / (mx - mn)) ∧
             0 ≤ 100 * (x - mn) / (mx - mn) ∧
             100 * (x - mn) / (mx - mn) ≤ 100))) := by
  intro nc W i hi
  have hbody : (cotIndex nc W).getD i none =
      (if (((nc.take (i + 1)).drop (i + 1 - W)).filterMap id).length < max 5 (W / 5)
       then none
       else
        match nc.getD i none,
            listMin (((nc.take (i + 1)).drop (i + 1 - W)).filterMap id),
            listMax (((nc.take (i + 1)).drop (i + 1 - W)).filterMap id) with
        | some x, some mn, some mx =>
            if mx = mn then none else some (100 * (x - mn) / (mx - mn))
        | _, _, _ => none) := by
    unfold cotIndex
    rw [getD_map_range _ _ _ hi]
  refine ⟨?_, ?_, ?_⟩
  · intro h
    rw [hbody, if_pos h]
  · intro hnone
    rw [hbody]
    by_cases h : (((nc.take (i + 1)).drop (i + 1 - W)).filterMap id).length
        < max 5 (W / 5)
    · rw [if_pos h]
    · rw [if_neg h, hnone]
  · intro x mn mx hlen hx hmn hmx
    have hW : 1 ≤ W := by
      by_contra hW0
      have hW' : W = 0 := by omega
      subst hW'
      simp only [Nat.sub_zero] at hlen
      have hwl : ((nc.take (i + 1)).drop (i + 1)).length = 0 := by
        rw [List.length_drop, List.length_take]
        omega
      have hv := List.length_filterMap_le id ((nc.take (i + 1)).drop (i + 1))
      rw [hwl] at hv
      simp at hlen
      omega
    have hval : (cotIndex nc W).getD i none =
        (if mx = mn then none else some (100 * (x - mn) / (mx - mn))) := by
      rw [hbody, if_neg (not_lt.mpr hlen), hx, hmn, hmx]
    constructor
    · intro heq
      rw [hval, if_pos heq]
    · intro hlt
      have hne : mx ≠ mn := ne_of_gt hlt
      have hmem := mem_window hW hi
      rw [hx] at hmem
      have hxv : x ∈ ((nc.take (i + 1)).drop (i + 1 - W)).filterMap id :=
        List.mem_filterMap.mpr ⟨some x, hmem, rfl⟩
      have h1 : mn ≤ x := listMin_le hmn hxv
      have h2 : x ≤ mx := le_listMax hmx hxv
      have hd : (0 : ℚ) < mx - mn := by linarith
      refine ⟨by rw [hval, if_neg hne], ?_, ?_⟩
      · apply div_nonneg _ (le_of_lt hd)
        linarith
      · rw [div_le_iff₀ hd]
        linarith

/-- Witness for the amended C4: at the series `[0, 10, 0, 10, 5]` with
`W = 5`, the index at the last position is `100 * (5 - 0) / (10 - 0) = 50`. -/
theorem cotIndex_amended_witness :
    (cotIndex [some 0, some 10, some 0, some 10, some 5] 5).getD 4 none
      = some 50 := by
  have h := ((cotIndex_amended [some 0, some 10, some 0, some 10, some 5] 5 4
      (by norm_num)).2.2 5 0 10 (by decide) (by decide) (by decide) (by decide)).2
      (by norm_num)
  rw [h.1]
  norm_num

end COT
